import Mathlib

/-!
Shallow embedding of the Pauli-frame propagation engine of
quantum-error-analyzer: the phase group, bit-packed Pauli strings,
gate conjugation rules, the circuit container and the stepping
simulator, together with theorems settling the specification claims.

Machine integers (u64 bit fields) are modelled as Nat; the 64-bit
complement used by the source's bit-clearing writes is modelled as
XOR against the 64-bit all-ones mask.
-/

namespace QEA

/-- The 64-bit all-ones word, domain of the source's u64 complement. -/
def mask64 : Nat := 2 ^ 64 - 1

/-- Reading bit i of a packed word, the source's indexing of a bit field. -/
def getBit (x i : Nat) : Bool := x.testBit i

/-- Writing bit i of a packed word to b, the source's bit-field update
(set via OR with the shifted one-bit, clear via AND with the 64-bit
complement of the shifted one-bit). -/
def setBit (x i : Nat) (b : Bool) : Nat :=
  if b then x ||| (1 <<< i) else x &&& (mask64 ^^^ (1 <<< i))

/-- Population count of a word, the source's count_ones on u64: 64 bits
are consumed, halving the word each step. -/
def popcountAux : Nat → Nat → Nat
  | 0, _ => 0
  | fuel + 1, n => if n = 0 then 0 else popcountAux fuel (n / 2) + n % 2

/-- count_ones of a u64 value (values below 2^64 are counted exactly). -/
def popcount (n : Nat) : Nat := popcountAux 64 n

/-- Phase factor, encoded as 0 = +1, 1 = +i, 2 = -1, 3 = -i (pauli.rs). -/
inductive Phase where
  | PlusOne
  | PlusI
  | MinusOne
  | MinusI
deriving DecidableEq

/-- Phase::to_u8. -/
def Phase.toU8 : Phase → Nat
  | .PlusOne => 0
  | .PlusI => 1
  | .MinusOne => 2
  | .MinusI => 3

/-- Phase::from_u8: masks the argument with 3 and decodes. -/
def Phase.fromU8 (value : Nat) : Phase :=
  match value &&& 3 with
  | 0 => .PlusOne
  | 1 => .PlusI
  | 2 => .MinusOne
  | _ => .MinusI

/-- Phase::multiply: addition of exponents mod 4. -/
def Phase.multiply (a other : Phase) : Phase :=
  Phase.fromU8 ((a.toU8 + other.toU8) % 4)

/-- Phase::negate: add 2 mod 4. -/
def Phase.negate (a : Phase) : Phase :=
  Phase.fromU8 ((a.toU8 + 2) % 4)

/-- Single-qubit Pauli component (pauli.rs). -/
inductive SinglePauli where
  | I
  | X
  | Y
  | Z
deriving DecidableEq

/-- Multi-qubit Pauli string in bit-packed symplectic form (pauli.rs):
x_bits and z_bits are u64 bit fields, bit i is the X / Z component on
qubit i, plus an overall phase and the qubit count used for bounds
checks. -/
structure PauliString where
  x_bits : Nat
  z_bits : Nat
  phase : Phase
  num_qubits : Nat
deriving DecidableEq

/-- PauliString::new: all-identity string; fails (panics) above 64 qubits. -/
def PauliString.new (num_qubits : Nat) : Option PauliString :=
  if num_qubits > 64 then none
  else some { x_bits := 0, z_bits := 0, phase := .PlusOne, num_qubits := num_qubits }

/-- PauliString::get_pauli: bounds-checked read of the (x,z) pair of one
qubit; none models the out-of-range panic. -/
def PauliString.get_pauli (p : PauliString) (qubit : Nat) : Option SinglePauli :=
  if qubit ≥ p.num_qubits then none
  else
    let x := (p.x_bits >>> qubit) &&& 1
    let z := (p.z_bits >>> qubit) &&& 1
    some (match x, z with
      | 0, 0 => .I
      | 1, 0 => .X
      | 0, 1 => .Z
      | _, _ => .Y)

/-- PauliString::set_pauli: bounds-checked write of one qubit's (x,z)
pair; both bits are first cleared through the 64-bit complement mask,
then set according to the component; none models the panic. -/
def PauliString.set_pauli (p : PauliString) (qubit : Nat) (pauli : SinglePauli) :
    Option PauliString :=
  if qubit ≥ p.num_qubits then none
  else
    let mask := mask64 ^^^ (1 <<< qubit)
    let x := p.x_bits &&& mask
    let z := p.z_bits &&& mask
    some (match pauli with
      | .I => { p with x_bits := x, z_bits := z }
      | .X => { p with x_bits := x ||| (1 <<< qubit), z_bits := z }
      | .Z => { p with x_bits := x, z_bits := z ||| (1 <<< qubit) }
      | .Y => { p with x_bits := x ||| (1 <<< qubit), z_bits := z ||| (1 <<< qubit) })

/-- PauliString::multiply: XOR of the bit fields; the phase picks up
i^omega with omega the normalized difference of the two symplectic
popcounts, computed exactly as the source does with truncating i32
remainders; none models the mismatched-size panic. -/
def PauliString.multiply (p other : PauliString) : Option PauliString :=
  if p.num_qubits ≠ other.num_qubits then none
  else
    let new_x_bits := p.x_bits ^^^ other.x_bits
    let new_z_bits := p.z_bits ^^^ other.z_bits
    let phase0 := p.phase.multiply other.phase
    let positive_contrib : Int := popcount (p.x_bits &&& other.z_bits)
    let negative_contrib : Int := popcount (p.z_bits &&& other.x_bits)
    let phase_exponent : Int := ((positive_contrib - negative_contrib).tmod 4 + 4).tmod 4
    let phase :=
      if phase_exponent ≠ 0 then phase0.multiply (Phase.fromU8 phase_exponent.toNat)
      else phase0
    some { x_bits := new_x_bits, z_bits := new_z_bits, phase := phase,
           num_qubits := p.num_qubits }

/-- Single-qubit gate kinds (circuit.rs). -/
inductive SingleGate where
  | X
  | Y
  | Z
  | H
  | S
  | Sdg
  | I
deriving DecidableEq

/-- Two-qubit gate kinds with their operand indices (circuit.rs). -/
inductive TwoGate where
  | CNOT (control target : Nat)
  | CZ (control target : Nat)
  | SWAP (qubit1 qubit2 : Nat)
deriving DecidableEq

/-- A circuit gate: single-qubit or two-qubit (circuit.rs). -/
inductive Gate where
  | Single (qubit : Nat) (gate : SingleGate)
  | Two (two_gate : TwoGate)
deriving DecidableEq

/-- Gate::qubits: the operand indices a gate touches. -/
def Gate.qubits : Gate → List Nat
  | .Single qubit _ => [qubit]
  | .Two (.CNOT control target) => [control, target]
  | .Two (.CZ control target) => [control, target]
  | .Two (.SWAP qubit1 qubit2) => [qubit1, qubit2]

/-- propagation.rs apply_single_gate: conjugation of a Pauli string by a
single-qubit Clifford gate; none models the out-of-range panic. -/
def apply_single_gate (pauli : PauliString) (qubit : Nat) (gate : SingleGate) :
    Option PauliString :=
  if qubit ≥ pauli.num_qubits then none
  else some (match gate with
    | .I => pauli
    | .X =>
      if getBit pauli.z_bits qubit then
        { pauli with phase := pauli.phase.multiply .MinusOne }
      else pauli
    | .Y =>
      let x_bit := getBit pauli.x_bits qubit
      let z_bit := getBit pauli.z_bits qubit
      if (x_bit && !z_bit) || (!x_bit && z_bit) then
        { pauli with phase := pauli.phase.multiply .MinusOne }
      else pauli
    | .Z =>
      if getBit pauli.x_bits qubit then
        { pauli with phase := pauli.phase.multiply .MinusOne }
      else pauli
    | .H =>
      let x_bit := getBit pauli.x_bits qubit
      let z_bit := getBit pauli.z_bits qubit
      let p1 := { pauli with
        x_bits := setBit pauli.x_bits qubit z_bit,
        z_bits := setBit pauli.z_bits qubit x_bit }
      if x_bit && z_bit then { p1 with phase := p1.phase.multiply .MinusOne } else p1
    | .S =>
      let x_bit := getBit pauli.x_bits qubit
      let z_bit := getBit pauli.z_bits qubit
      if x_bit then
        let p1 := { pauli with z_bits := setBit pauli.z_bits qubit (!z_bit) }
        if !z_bit then { p1 with phase := p1.phase.multiply .PlusI }
        else if p1.phase = .MinusI then { p1 with phase := .PlusOne }
        else { p1 with phase := p1.phase.multiply .MinusOne }
      else pauli
    | .Sdg =>
      let x_bit := getBit pauli.x_bits qubit
      let z_bit := getBit pauli.z_bits qubit
      if x_bit then
        let p1 := { pauli with z_bits := setBit pauli.z_bits qubit (!z_bit) }
        if !z_bit then { p1 with phase := p1.phase.multiply .MinusI }
        else if p1.phase = .PlusI then { p1 with phase := .PlusOne }
        else p1
      else pauli)

/-- propagation.rs apply_two_gate: conjugation by CNOT, CZ or SWAP; none
models the out-of-range and equal-operand panics (SWAP with equal
operands is an explicit no-op, not a panic). -/
def apply_two_gate (pauli : PauliString) (gate : TwoGate) : Option PauliString :=
  match gate with
  | .CNOT control target =>
    if control ≥ pauli.num_qubits ∨ target ≥ pauli.num_qubits then none
    else if control = target then none
    else
      let x_c := getBit pauli.x_bits control
      let z_t := getBit pauli.z_bits target
      let new_x := if x_c then setBit pauli.x_bits target true else pauli.x_bits
      let new_z :=
        if z_t then setBit pauli.z_bits control (!getBit pauli.z_bits control)
        else pauli.z_bits
      let p1 := { pauli with x_bits := new_x, z_bits := new_z }
      some (if x_c && z_t then { p1 with phase := p1.phase.multiply .MinusOne } else p1)
  | .CZ control target =>
    if control ≥ pauli.num_qubits ∨ target ≥ pauli.num_qubits then none
    else if control = target then none
    else
      let x_c := getBit pauli.x_bits control
      let x_t := getBit pauli.x_bits target
      let z1 :=
        if x_c then setBit pauli.z_bits target (!getBit pauli.z_bits target)
        else pauli.z_bits
      let z2 := if x_t then setBit z1 control (!getBit z1 control) else z1
      let p1 := { pauli with z_bits := z2 }
      some (if x_c && x_t then { p1 with phase := p1.phase.multiply .MinusOne } else p1)
  | .SWAP qubit1 qubit2 =>
    if qubit1 ≥ pauli.num_qubits ∨ qubit2 ≥ pauli.num_qubits then none
    else if qubit1 = qubit2 then some pauli
    else
      let x1 := getBit pauli.x_bits qubit1
      let z1 := getBit pauli.z_bits qubit1
      let x2 := getBit pauli.x_bits qubit2
      let z2 := getBit pauli.z_bits qubit2
      some { pauli with
        x_bits := setBit (setBit pauli.x_bits qubit1 x2) qubit2 x1,
        z_bits := setBit (setBit pauli.z_bits qubit1 z2) qubit2 z1 }

/-- propagation.rs apply_gate: dispatch on the gate tag. -/
def apply_gate (pauli : PauliString) (gate : Gate) : Option PauliString :=
  match gate with
  | .Single qubit g => apply_single_gate pauli qubit g
  | .Two two_gate => apply_two_gate pauli two_gate

/-- circuit.rs Circuit: a qubit count and an ordered gate list. -/
structure Circuit where
  num_qubits : Nat
  gates : List Gate
deriving DecidableEq

/-- Circuit::new: empty gate list. -/
def Circuit.new (num_qubits : Nat) : Circuit :=
  { num_qubits := num_qubits, gates := [] }

/-- Circuit::add_gate: rejects (Err) any gate referencing a qubit index
at or above num_qubits, otherwise appends it; none models Err. -/
def Circuit.add_gate (c : Circuit) (gate : Gate) : Option Circuit :=
  if gate.qubits.all (fun q => decide (q < c.num_qubits)) then
    some { c with gates := c.gates ++ [gate] }
  else none

/-- Circuit::depth: the gate list length. -/
def Circuit.depth (c : Circuit) : Nat := c.gates.length

/-- simulator.rs Snapshot: a recorded point of the timeline. -/
structure Snapshot where
  time : Nat
  error_pattern : PauliString
  gate_applied : Option Nat
deriving DecidableEq

/-- simulator.rs Simulator: live error pattern, circuit, timeline of
snapshots and the current-time cursor. -/
structure Simulator where
  error_pattern : PauliString
  circuit : Circuit
  timeline : List Snapshot
  current_time : Nat
deriving DecidableEq

/-- Simulator::new: all-identity pattern, singleton timeline, cursor 0;
none models the panic of PauliString::new above 64 qubits. -/
def Simulator.new (circuit : Circuit) : Option Simulator :=
  (PauliString.new circuit.num_qubits).map fun error_pattern =>
    { error_pattern := error_pattern, circuit := circuit,
      timeline := [{ time := 0, error_pattern := error_pattern, gate_applied := none }],
      current_time := 0 }

/-- The source's last_mut update: replace the error pattern recorded in
the final timeline entry, leaving every other entry and the remaining
fields of the final entry alone; the empty timeline is left unchanged. -/
def updateLast (timeline : List Snapshot) (ep : PauliString) : List Snapshot :=
  match timeline with
  | [] => []
  | [snap] => [{ snap with error_pattern := ep }]
  | snap :: rest => snap :: updateLast rest ep

/-- Simulator::inject_error: writes one component on the live pattern and
mirrors the updated pattern into the most recent timeline entry; none
models the set_pauli panic on an out-of-range qubit. -/
def Simulator.inject_error (s : Simulator) (qubit : Nat) (pauli : SinglePauli) :
    Option Simulator :=
  (s.error_pattern.set_pauli qubit pauli).map fun ep =>
    { s with error_pattern := ep, timeline := updateLast s.timeline ep }

/-- Simulator::step_forward: no-op returning false at (or beyond) the end
of the gate list; otherwise applies the gate at index current_time,
advances the cursor and appends a snapshot; none models a propagation
panic. -/
def Simulator.step_forward (s : Simulator) : Option (Bool × Simulator) :=
  if h : s.current_time < s.circuit.gates.length then
    (apply_gate s.error_pattern (s.circuit.gates.get ⟨s.current_time, h⟩)).map fun ep =>
      (true,
        { s with
            error_pattern := ep,
            current_time := s.current_time + 1,
            timeline := s.timeline ++
              [{ time := s.current_time + 1, error_pattern := ep,
                 gate_applied := some s.current_time }] })
  else some (false, s)

/-- Simulator::step_backward: no-op returning false at cursor 0;
otherwise drops the last snapshot, decrements the cursor and restores
the live pattern from the new last snapshot. -/
def Simulator.step_backward (s : Simulator) : Bool × Simulator :=
  if s.current_time = 0 then (false, s)
  else
    let timeline := s.timeline.dropLast
    let ep :=
      match timeline.getLast? with
      | some snap => snap.error_pattern
      | none => s.error_pattern
    (true,
      { s with
          timeline := timeline,
          current_time := s.current_time - 1,
          error_pattern := ep })

/-- Simulator::reset: fresh all-identity pattern and singleton timeline;
none models the PauliString::new panic above 64 qubits. -/
def Simulator.reset (s : Simulator) : Option Simulator :=
  (PauliString.new s.circuit.num_qubits).map fun ep =>
    { s with
        current_time := 0,
        error_pattern := ep,
        timeline := [{ time := 0, error_pattern := ep, gate_applied := none }] }

/-- Fuel-indexed unfolding of Simulator::run's loop body. -/
def runAux : Nat → Simulator → Option Simulator
  | 0, s => some s
  | fuel + 1, s =>
    match s.step_forward with
    | none => none
    | some (false, s1) => some s1
    | some (true, s1) => runAux fuel s1

/-- Simulator::run: step forward until step_forward returns false; the
loop performs at most gates.length + 1 calls, which the fuel covers. -/
def Simulator.run (s : Simulator) : Option Simulator :=
  runAux (s.circuit.gates.length + 1) s

/-- n successive step_forward calls, failing if any call panics. -/
def stepForwardN : Nat → Simulator → Option Simulator
  | 0, s => some s
  | n + 1, s =>
    match s.step_forward with
    | none => none
    | some (_, s1) => stepForwardN n s1

/-- n successive step_backward calls. -/
def stepBackwardN : Nat → Simulator → Simulator
  | 0, s => s
  | n + 1, s => (Simulator.step_backward (stepBackwardN n s)).2

/-- The symplectic exponent of the specification's multiplication law:
the difference of the two popcounts mod 4, normalized into [0,4). -/
def symplecticOmega (p other : PauliString) : Nat :=
  ((((popcount (p.x_bits &&& other.z_bits) : Int)
    - (popcount (p.z_bits &&& other.x_bits) : Int)) % 4)).toNat

/-- The specification's multiplication phase: phase1 * phase2 * i^omega. -/
def claimPhase (p other : PauliString) : Phase :=
  (p.phase.multiply other.phase).multiply (Phase.fromU8 (symplecticOmega p other))

/-- Gates whose propagation rule panics on equal operands even though
both operands are in range: CNOT and CZ with control = target. -/
def gateSelfTargeting : Gate → Bool
  | .Two (.CNOT control target) => control == target
  | .Two (.CZ control target) => control == target
  | _ => false

/-- The simulator invariant of the specification: the cursor stays within
the circuit depth, the timeline holds exactly current_time + 1 entries,
and entry 0 is the initial pre-gate snapshot (time 0, no gate). -/
def Inv (s : Simulator) : Prop :=
  s.current_time ≤ s.circuit.gates.length ∧
  s.timeline.length = s.current_time + 1 ∧
  s.timeline.head?.map (fun h => (h.time, h.gate_applied)) = some (0, none)

/-- The live pattern agrees with the pattern recorded in the most recent
timeline entry (holds after construction and error injection). -/
def liveMatchesLast (s : Simulator) : Prop :=
  s.timeline.getLast?.map Snapshot.error_pattern = some s.error_pattern

/-! Arithmetic and bit-level helper lemmas. -/

/-- The source's doubly-truncating remainder normalization agrees with the
mathematical residue in [0,4). -/
theorem tmod_norm (d : Int) : ((d.tmod 4) + 4).tmod 4 = d % 4 := by
  have key : ∀ e : Int, 0 ≤ e → e < 4 → (e + 4) % 4 = e := by
    intro e h1 h2; omega
  obtain h | h := le_or_lt 0 d
  · have he1 : 0 ≤ d % 4 := Int.emod_nonneg _ (by norm_num)
    have he2 : d % 4 < 4 := Int.emod_lt_of_pos _ (by norm_num)
    rw [Int.tmod_eq_emod h (by norm_num), Int.tmod_eq_emod (by omega) (by norm_num)]
    exact key _ he1 he2
  · have ha : 0 ≤ -d := by omega
    have h1 : d.tmod 4 = -((-d).tmod 4) := by
      rw [Int.tmod_def, Int.tmod_def, Int.neg_tdiv]; ring
    have hm1 : 0 ≤ (-d) % 4 := Int.emod_nonneg _ (by norm_num)
    have hm2 : (-d) % 4 < 4 := Int.emod_lt_of_pos _ (by norm_num)
    rw [h1, Int.tmod_eq_emod ha (by norm_num),
      Int.tmod_eq_emod (by omega) (by norm_num)]
    omega

/-- Reading a bit of the 64-bit all-ones mask. -/
theorem getBit_mask64 (j : Nat) : Nat.testBit mask64 j = decide (j < 64) := by
  have h : mask64 = 2 ^ 64 - 1 := rfl
  rw [h, Nat.testBit_two_pow_sub_one]

/-- Writing a bit and reading it back at an index below the word width. -/
theorem getBit_setBit_self (x i : Nat) (b : Bool) (hi : i < 64) :
    getBit (setBit x i b) i = b := by
  cases b
  · simp [getBit, setBit, Nat.testBit_land, Nat.testBit_xor, Nat.one_shiftLeft,
      Nat.testBit_two_pow, getBit_mask64, hi]
  · simp [getBit, setBit, Nat.testBit_lor, Nat.one_shiftLeft, Nat.testBit_two_pow]

/-- Writing a bit leaves every other in-width index unchanged. -/
theorem getBit_setBit_ne (x i j : Nat) (b : Bool) (hj : j < 64) (hne : j ≠ i) :
    getBit (setBit x i b) j = getBit x j := by
  cases b
  · simp [getBit, setBit, Nat.testBit_land, Nat.testBit_xor, Nat.one_shiftLeft,
      Nat.testBit_two_pow, getBit_mask64, hj, Ne.symm hne]
  · simp [getBit, setBit, Nat.testBit_lor, Nat.one_shiftLeft, Nat.testBit_two_pow,
      Ne.symm hne]

/-- Reading a bit of an OR. -/
theorem getBit_lor (x y j : Nat) : getBit (x ||| y) j = (getBit x j || getBit y j) :=
  Nat.testBit_lor x y j

/-- Reading a bit of a one-bit word. -/
theorem getBit_one_shiftLeft (c j : Nat) : getBit (1 <<< c) j = decide (c = j) := by
  simp [getBit, Nat.one_shiftLeft, Nat.testBit_two_pow]

/-- Reading a bit of the zero word. -/
theorem getBit_zero (j : Nat) : getBit 0 j = false := Nat.zero_testBit j

/-- Absorption of a repeated OR operand. -/
theorem lor_lor_self (a b : Nat) : (a ||| b) ||| b = a ||| b := by
  apply Nat.eq_of_testBit_eq
  intro i
  simp [Nat.testBit_lor, Bool.or_assoc]

/-! Claim theorems. -/

/-- C1, counterexample: on the two-qubit Pauli X⊗X and CNOT(0,1) the code
leaves the target x bit set (x_bits stays 3), while the claimed rule
x_t XOR x_c predicts a cleared target x bit; the claim is false at this
input. -/
theorem cnot_xor_claim_counterexample :
    apply_two_gate { x_bits := 3, z_bits := 0, phase := .PlusOne, num_qubits := 2 }
        (.CNOT 0 1)
      = some { x_bits := 3, z_bits := 0, phase := .PlusOne, num_qubits := 2 } ∧
    getBit 3 1 = true ∧
    ((getBit 3 1).xor (getBit 3 0)) = false := by
  refine ⟨by decide, by decide, by decide⟩

/-- C1, amended: for every PauliString with at least 2 qubits (at most 64)
and CNOT(control, target) with distinct in-range operands, the code sets
the target x bit to x_t OR x_c, the control z bit to z_c XOR z_t, leaves
the control x bit and target z bit unchanged, multiplies the phase by -1
iff x_c AND z_t, and leaves every other qubit's components unchanged. -/
theorem cnot_conjugation_or_rule (p : PauliString) (control target : Nat)
    (hn2 : 2 ≤ p.num_qubits) (hn64 : p.num_qubits ≤ 64)
    (hne : control ≠ target)
    (hc : control < p.num_qubits) (ht : target < p.num_qubits) :
    ∃ q, apply_two_gate p (.CNOT control target) = some q ∧
      q.num_qubits = p.num_qubits ∧
      getBit q.x_bits target = (getBit p.x_bits target || getBit p.x_bits control) ∧
      getBit q.z_bits control = ((getBit p.z_bits control).xor (getBit p.z_bits target)) ∧
      getBit q.x_bits control = getBit p.x_bits control ∧
      getBit q.z_bits target = getBit p.z_bits target ∧
      q.phase = (if getBit p.x_bits control && getBit p.z_bits target
                 then p.phase.multiply .MinusOne else p.phase) ∧
      (∀ j, j < p.num_qubits → j ≠ control → j ≠ target →
        getBit q.x_bits j = getBit p.x_bits j ∧ getBit q.z_bits j = getBit p.z_bits j) := by
  have hc64 : control < 64 := by omega
  have ht64 : target < 64 := by omega
  simp only [apply_two_gate]
  rw [if_neg (show ¬(control ≥ p.num_qubits ∨ target ≥ p.num_qubits) by omega),
    if_neg hne]
  cases hxc : getBit p.x_bits control <;> cases hzt : getBit p.z_bits target <;>
    simp only [hxc, hzt, Bool.false_and, Bool.true_and, Bool.and_false, Bool.and_true,
      if_true, if_false, Bool.xor_false, Bool.xor_true, Bool.or_false, Bool.or_true] <;>
    refine ⟨_, rfl, rfl, ?_, ?_, ?_, ?_, ?_, ?_⟩ <;>
    first
      | rfl
      | (simp [hxc, hzt, getBit_setBit_self, getBit_setBit_ne, hc64, ht64, hne,
           Ne.symm hne]
         done)
      | (intro j hj hjc hjt
         have hj64 : j < 64 := by omega
         simp [getBit_setBit_ne, hj64, hjc, hjt]
         done)

/-- C1 witness: the amended CNOT rule at a concrete input (Y on the
control, Z on the target of a 2-qubit string). -/
theorem cnot_conjugation_or_rule_witness :
    ∃ q, apply_two_gate { x_bits := 1, z_bits := 3, phase := .PlusOne, num_qubits := 2 }
        (.CNOT 0 1) = some q ∧
      q.num_qubits = 2 ∧
      getBit q.x_bits 1 = (getBit 1 1 || getBit 1 0) ∧
      getBit q.z_bits 0 = ((getBit 3 0).xor (getBit 3 1)) ∧
      getBit q.x_bits 0 = getBit 1 0 ∧
      getBit q.z_bits 1 = getBit 3 1 ∧
      q.phase = (if getBit 1 0 && getBit 3 1
                 then Phase.PlusOne.multiply .MinusOne else .PlusOne) ∧
      (∀ j, j < 2 → j ≠ 0 → j ≠ 1 →
        getBit q.x_bits j = getBit 1 j ∧ getBit q.z_bits j = getBit 3 j) :=
  cnot_conjugation_or_rule
    { x_bits := 1, z_bits := 3, phase := .PlusOne, num_qubits := 2 } 0 1
    (by decide) (by decide) (by decide) (by decide) (by decide)

/-- C7: under the code's CNOT rule with distinct in-range operands, X on
the control spreads to the target with the phase unchanged, Z on the
target spreads to the control with the phase unchanged, X⊗Z maps to Y⊗Y
with the phase multiplied by -1, and X⊗X is a fixed point. -/
theorem cnot_spreading_identities (n c t : Nat) (ph : Phase)
    (hne : c ≠ t) (hc : c < n) (ht : t < n) :
    apply_two_gate { x_bits := 1 <<< c, z_bits := 0, phase := ph, num_qubits := n }
        (.CNOT c t)
      = some { x_bits := (1 <<< c) ||| (1 <<< t), z_bits := 0, phase := ph,
               num_qubits := n } ∧
    apply_two_gate { x_bits := 0, z_bits := 1 <<< t, phase := ph, num_qubits := n }
        (.CNOT c t)
      = some { x_bits := 0, z_bits := (1 <<< t) ||| (1 <<< c), phase := ph,
               num_qubits := n } ∧
    apply_two_gate { x_bits := 1 <<< c, z_bits := 1 <<< t, phase := ph, num_qubits := n }
        (.CNOT c t)
      = some { x_bits := (1 <<< c) ||| (1 <<< t), z_bits := (1 <<< t) ||| (1 <<< c),
               phase := ph.multiply .MinusOne, num_qubits := n } ∧
    apply_two_gate { x_bits := (1 <<< c) ||| (1 <<< t), z_bits := 0, phase := ph,
                     num_qubits := n } (.CNOT c t)
      = some { x_bits := (1 <<< c) ||| (1 <<< t), z_bits := 0, phase := ph,
               num_qubits := n } := by
  refine ⟨?_, ?_, ?_, ?_⟩ <;>
    (simp only [apply_two_gate]
     rw [if_neg (show ¬(c ≥ n ∨ t ≥ n) by omega), if_neg hne]
     simp [getBit_one_shiftLeft, getBit_zero, getBit_lor, setBit, hne, Ne.symm hne,
       lor_lor_self])

/-- C7 witness: the CNOT spreading identities on a concrete 2-qubit
string with control 0, target 1 and phase +1. -/
theorem cnot_spreading_identities_witness :
    apply_two_gate { x_bits := 1 <<< 0, z_bits := 0, phase := .PlusOne, num_qubits := 2 }
        (.CNOT 0 1)
      = some { x_bits := (1 <<< 0) ||| (1 <<< 1), z_bits := 0, phase := .PlusOne,
               num_qubits := 2 } ∧
    apply_two_gate { x_bits := 0, z_bits := 1 <<< 1, phase := .PlusOne, num_qubits := 2 }
        (.CNOT 0 1)
      = some { x_bits := 0, z_bits := (1 <<< 1) ||| (1 <<< 0), phase := .PlusOne,
               num_qubits := 2 } ∧
    apply_two_gate { x_bits := 1 <<< 0, z_bits := 1 <<< 1, phase := .PlusOne,
                     num_qubits := 2 } (.CNOT 0 1)
      = some { x_bits := (1 <<< 0) ||| (1 <<< 1), z_bits := (1 <<< 1) ||| (1 <<< 0),
               phase := Phase.PlusOne.multiply .MinusOne, num_qubits := 2 } ∧
    apply_two_gate { x_bits := (1 <<< 0) ||| (1 <<< 1), z_bits := 0, phase := .PlusOne,
                     num_qubits := 2 } (.CNOT 0 1)
      = some { x_bits := (1 <<< 0) ||| (1 <<< 1), z_bits := 0, phase := .PlusOne,
               num_qubits := 2 } :=
  cnot_spreading_identities 2 0 1 .PlusOne (by decide) (by decide) (by decide)

/-- C2: the code's trace of four successive S applications starting from
the single-qubit X with phase +1: the first three steps produce Y(+i),
X(-i) and Y(+1) as claimed, but the fourth produces X with phase
MinusOne, not PlusOne, so the code's S conjugation does not satisfy
S applied four times = identity on this trace. -/
theorem s_gate_fourfold_trace :
    apply_single_gate { x_bits := 1, z_bits := 0, phase := .PlusOne, num_qubits := 1 } 0 .S
      = some { x_bits := 1, z_bits := 1, phase := .PlusI, num_qubits := 1 } ∧
    apply_single_gate { x_bits := 1, z_bits := 1, phase := .PlusI, num_qubits := 1 } 0 .S
      = some { x_bits := 1, z_bits := 0, phase := .MinusI, num_qubits := 1 } ∧
    apply_single_gate { x_bits := 1, z_bits := 0, phase := .MinusI, num_qubits := 1 } 0 .S
      = some { x_bits := 1, z_bits := 1, phase := .PlusOne, num_qubits := 1 } ∧
    apply_single_gate { x_bits := 1, z_bits := 1, phase := .PlusOne, num_qubits := 1 } 0 .S
      = some { x_bits := 1, z_bits := 0, phase := .MinusOne, num_qubits := 1 } ∧
    Phase.MinusOne ≠ Phase.PlusOne := by
  refine ⟨by decide, by decide, by decide, by decide, by decide⟩

/-- C3: the S then S-dagger round trip (and the S-dagger then S round
trip) fails to restore the phase: on the single-qubit X with phase +i
both compositions return X with phase MinusOne instead of PlusI. -/
theorem s_sdg_roundtrip_failure :
    ((apply_single_gate { x_bits := 1, z_bits := 0, phase := .PlusI, num_qubits := 1 }
        0 .S).bind (fun p => apply_single_gate p 0 .Sdg))
      = some { x_bits := 1, z_bits := 0, phase := .MinusOne, num_qubits := 1 } ∧
    ((apply_single_gate { x_bits := 1, z_bits := 0, phase := .PlusI, num_qubits := 1 }
        0 .Sdg).bind (fun p => apply_single_gate p 0 .S))
      = some { x_bits := 1, z_bits := 0, phase := .MinusOne, num_qubits := 1 } ∧
    Phase.MinusOne ≠ Phase.PlusI := by
  refine ⟨by decide, by decide, by decide⟩

/-- C4, counterexample: add_gate accepts CNOT(0,0) into a 2-qubit circuit
(both operands are in range, equality is not checked), yet apply_gate on
a matching Pauli string reaches the control = target panic. -/
theorem add_gate_self_target_counterexample :
    (Circuit.new 2).add_gate (.Two (.CNOT 0 0))
      = some { num_qubits := 2, gates := [.Two (.CNOT 0 0)] } ∧
    apply_gate { x_bits := 0, z_bits := 0, phase := .PlusOne, num_qubits := 2 }
      (.Two (.CNOT 0 0)) = none := by
  refine ⟨by decide, by decide⟩

/-- C4, amended: every gate accepted by add_gate has all operand indices
in range, and for a gate whose operands are in range the propagation
rules panic exactly when it is a CNOT or CZ with control = target; in
particular the out-of-range panics are unreachable for validated gates,
but the control = target panic remains reachable. -/
theorem validated_gate_panic_characterization :
    (∀ (c c' : Circuit) (g : Gate), c.add_gate g = some c' →
      ∀ q ∈ g.qubits, q < c.num_qubits) ∧
    (∀ (p : PauliString) (g : Gate), (∀ q ∈ g.qubits, q < p.num_qubits) →
      (apply_gate p g = none ↔ gateSelfTargeting g = true)) := by
  constructor
  · intro c c' g hadd q hq
    simp only [Circuit.add_gate] at hadd
    split at hadd
    · next hall => simpa using List.all_eq_true.mp hall q hq
    · exact absurd hadd (by simp)
  · intro p g hq
    cases g with
    | Single qubit sg =>
      have h1 : qubit < p.num_qubits := hq qubit (by simp [Gate.qubits])
      simp only [apply_gate, apply_single_gate]
      rw [if_neg (by omega)]
      simp [gateSelfTargeting]
    | Two tg =>
      cases tg with
      | CNOT c t =>
        have h1 : c < p.num_qubits := hq c (by simp [Gate.qubits])
        have h2 : t < p.num_qubits := hq t (by simp [Gate.qubits])
        simp only [apply_gate, apply_two_gate]
        rw [if_neg (show ¬(c ≥ p.num_qubits ∨ t ≥ p.num_qubits) by omega)]
        by_cases hct : c = t
        · simp [hct, gateSelfTargeting]
        · rw [if_neg hct]; simp [gateSelfTargeting, hct]
      | CZ c t =>
        have h1 : c < p.num_qubits := hq c (by simp [Gate.qubits])
        have h2 : t < p.num_qubits := hq t (by simp [Gate.qubits])
        simp only [apply_gate, apply_two_gate]
        rw [if_neg (show ¬(c ≥ p.num_qubits ∨ t ≥ p.num_qubits) by omega)]
        by_cases hct : c = t
        · simp [hct, gateSelfTargeting]
        · rw [if_neg hct]; simp [gateSelfTargeting, hct]
      | SWAP a b =>
        have h1 : a < p.num_qubits := hq a (by simp [Gate.qubits])
        have h2 : b < p.num_qubits := hq b (by simp [Gate.qubits])
        simp only [apply_gate, apply_two_gate]
        rw [if_neg (show ¬(a ≥ p.num_qubits ∨ b ≥ p.num_qubits) by omega)]
        by_cases hab : a = b
        · simp [hab, gateSelfTargeting]
        · rw [if_neg hab]; simp [gateSelfTargeting]

/-- C4 witness: the validated-gate bound and the panic characterization
instantiated at a 2-qubit circuit with a well-formed CNOT(0,1). -/
theorem validated_gate_panic_characterization_witness :
    (∀ q ∈ (Gate.Two (.CNOT 0 1)).qubits, q < (Circuit.new 2).num_qubits) ∧
    (apply_gate { x_bits := 0, z_bits := 0, phase := .PlusOne, num_qubits := 2 }
        (.Two (.CNOT 0 1)) = none ↔ gateSelfTargeting (.Two (.CNOT 0 1)) = true) :=
  ⟨validated_gate_panic_characterization.1 (Circuit.new 2)
      { num_qubits := 2, gates := [.Two (.CNOT 0 1)] } (.Two (.CNOT 0 1)) (by decide),
   validated_gate_panic_characterization.2
      { x_bits := 0, z_bits := 0, phase := .PlusOne, num_qubits := 2 }
      (.Two (.CNOT 0 1)) (by decide)⟩

/-- Multiplying a phase by +1 is the identity. -/
theorem Phase.multiply_PlusOne (a : Phase) : a.multiply .PlusOne = a := by
  cases a <;> rfl

/-- C5: multiply of equal-sized Pauli strings XORs the bit fields and
multiplies the phases together with i^omega for the normalized
symplectic exponent omega; mismatched sizes fail; the one-qubit
multiplication table holds: X*Z = Y(+i), Z*X = Y(-i), and X*X, Y*Y, Z*Z
are the identity with phase +1. -/
theorem multiply_symplectic_law (p1 p2 : PauliString) :
    (p1.num_qubits = p2.num_qubits →
      p1.multiply p2 = some { x_bits := p1.x_bits ^^^ p2.x_bits,
                              z_bits := p1.z_bits ^^^ p2.z_bits,
                              phase := claimPhase p1 p2,
                              num_qubits := p1.num_qubits }) ∧
    (p1.num_qubits ≠ p2.num_qubits → p1.multiply p2 = none) ∧
    PauliString.multiply { x_bits := 1, z_bits := 0, phase := .PlusOne, num_qubits := 1 }
        { x_bits := 0, z_bits := 1, phase := .PlusOne, num_qubits := 1 }
      = some { x_bits := 1, z_bits := 1, phase := .PlusI, num_qubits := 1 } ∧
    PauliString.multiply { x_bits := 0, z_bits := 1, phase := .PlusOne, num_qubits := 1 }
        { x_bits := 1, z_bits := 0, phase := .PlusOne, num_qubits := 1 }
      = some { x_bits := 1, z_bits := 1, phase := .MinusI, num_qubits := 1 } ∧
    PauliString.multiply { x_bits := 1, z_bits := 0, phase := .PlusOne, num_qubits := 1 }
        { x_bits := 1, z_bits := 0, phase := .PlusOne, num_qubits := 1 }
      = some { x_bits := 0, z_bits := 0, phase := .PlusOne, num_qubits := 1 } ∧
    PauliString.multiply { x_bits := 1, z_bits := 1, phase := .PlusOne, num_qubits := 1 }
        { x_bits := 1, z_bits := 1, phase := .PlusOne, num_qubits := 1 }
      = some { x_bits := 0, z_bits := 0, phase := .PlusOne, num_qubits := 1 } ∧
    PauliString.multiply { x_bits := 0, z_bits := 1, phase := .PlusOne, num_qubits := 1 }
        { x_bits := 0, z_bits := 1, phase := .PlusOne, num_qubits := 1 }
      = some { x_bits := 0, z_bits := 0, phase := .PlusOne, num_qubits := 1 } := by
  refine ⟨?_, ?_, by decide, by decide, by decide, by decide, by decide⟩
  · intro h
    simp only [PauliString.multiply, claimPhase, symplecticOmega]
    rw [if_neg (by simp [h]), tmod_norm]
    split
    · rfl
    · next h0 =>
      have h0 : (((popcount (p1.x_bits &&& p2.z_bits) : Int)
          - (popcount (p1.z_bits &&& p2.x_bits) : Int)) % 4) = 0 := by
        omega
      rw [h0]
      have hz : Phase.fromU8 (Int.toNat 0) = .PlusOne := rfl
      rw [hz, Phase.multiply_PlusOne]
  · intro h
    simp only [PauliString.multiply]
    rw [if_pos h]

/-- C5 witness: the general multiplication law applied to the concrete
one-qubit X and Z, and the mismatched-size failure on 1 vs 2 qubits. -/
theorem multiply_symplectic_law_witness :
    PauliString.multiply { x_bits := 1, z_bits := 0, phase := .PlusOne, num_qubits := 1 }
        { x_bits := 0, z_bits := 1, phase := .PlusOne, num_qubits := 1 }
      = some { x_bits := 1 ^^^ 0, z_bits := 0 ^^^ 1,
               phase := claimPhase
                 { x_bits := 1, z_bits := 0, phase := .PlusOne, num_qubits := 1 }
                 { x_bits := 0, z_bits := 1, phase := .PlusOne, num_qubits := 1 },
               num_qubits := 1 } ∧
    PauliString.multiply { x_bits := 0, z_bits := 0, phase := .PlusOne, num_qubits := 1 }
        { x_bits := 0, z_bits := 0, phase := .PlusOne, num_qubits := 2 }
      = none :=
  ⟨(multiply_symplectic_law
      { x_bits := 1, z_bits := 0, phase := .PlusOne, num_qubits := 1 }
      { x_bits := 0, z_bits := 1, phase := .PlusOne, num_qubits := 1 }).1 rfl,
   (multiply_symplectic_law
      { x_bits := 0, z_bits := 0, phase := .PlusOne, num_qubits := 1 }
      { x_bits := 0, z_bits := 0, phase := .PlusOne, num_qubits := 2 }).2.1 (by decide)⟩

/-! Timeline and bit-read helper lemmas for the simulator claims. -/

/-- updateLast preserves the timeline length. -/
theorem updateLast_length (tl : List Snapshot) (ep : PauliString) :
    (updateLast tl ep).length = tl.length := by
  induction tl with
  | nil => rfl
  | cons x xs ih =>
    cases xs with
    | nil => rfl
    | cons y ys =>
      simp only [updateLast, List.length_cons] at ih ⊢
      omega

/-- updateLast preserves the head's time and gate fields. -/
theorem updateLast_head_fields (tl : List Snapshot) (ep : PauliString) :
    (updateLast tl ep).head?.map (fun h => (h.time, h.gate_applied))
      = tl.head?.map (fun h => (h.time, h.gate_applied)) := by
  cases tl with
  | nil => rfl
  | cons x xs =>
    cases xs with
    | nil => rfl
    | cons y ys => rfl

/-- updateLast leaves everything before the last entry unchanged. -/
theorem updateLast_dropLast (tl : List Snapshot) (ep : PauliString) :
    (updateLast tl ep).dropLast = tl.dropLast := by
  induction tl with
  | nil => rfl
  | cons x xs ih =>
    cases xs with
    | nil => rfl
    | cons y ys =>
      cases ys with
      | nil => rfl
      | cons z zs =>
        simp only [updateLast] at ih ⊢
        simp only [List.dropLast_cons₂] at ih ⊢
        rw [ih]

/-- The last entry after updateLast is the old last entry with the error
pattern replaced. -/
theorem updateLast_getLast (tl : List Snapshot) (ep : PauliString) :
    (updateLast tl ep).getLast?
      = tl.getLast?.map (fun sn => { sn with error_pattern := ep }) := by
  induction tl with
  | nil => rfl
  | cons x xs ih =>
    cases xs with
    | nil => rfl
    | cons y ys =>
      simp only [updateLast] at ih ⊢
      rw [List.getLast?_cons_cons]
      cases ys with
      | nil => simp [updateLast]
      | cons z zs =>
        simp only [updateLast] at ih
        rw [← ih]
        rfl

/-- The head of a list with at least two entries survives dropLast. -/
theorem head_dropLast (tl : List Snapshot) (h : 2 ≤ tl.length) :
    tl.dropLast.head? = tl.head? := by
  cases tl with
  | nil => simp at h
  | cons x xs =>
    cases xs with
    | nil => simp at h
    | cons y ys => rfl

/-- Reading the low bit of a shifted word is the indicator of testBit. -/
theorem shiftRight_and_one (x j : Nat) :
    (x >>> j) &&& 1 = (if x.testBit j then 1 else 0) := by
  have hmod : (x >>> j) &&& 1 = (x >>> j) % 2 := Nat.and_one_is_mod _
  have hdiv : x >>> j = x / 2 ^ j := Nat.shiftRight_eq_div_pow x j
  have hbit : x.testBit j = decide (x / 2 ^ j % 2 = 1) := Nat.testBit_to_div_mod
  rcases Nat.mod_two_eq_zero_or_one (x / 2 ^ j) with h | h <;>
    simp [hmod, hdiv, hbit, h]

/-- get_pauli in terms of the two component bits. -/
theorem get_pauli_of_bits (p : PauliString) (j : Nat) (hj : j < p.num_qubits) :
    p.get_pauli j = some (
      if getBit p.x_bits j then (if getBit p.z_bits j then .Y else .X)
      else (if getBit p.z_bits j then .Z else .I)) := by
  have hx1 : (p.x_bits >>> j) % 2 = (if p.x_bits.testBit j then 1 else 0) := by
    rw [← Nat.and_one_is_mod]
    exact shiftRight_and_one p.x_bits j
  have hz1 : (p.z_bits >>> j) % 2 = (if p.z_bits.testBit j then 1 else 0) := by
    rw [← Nat.and_one_is_mod]
    exact shiftRight_and_one p.z_bits j
  cases hx : p.x_bits.testBit j <;> cases hz : p.z_bits.testBit j <;>
    simp [PauliString.get_pauli, getBit, hx1, hz1, hx, hz, Nat.not_le.mpr hj]

/-! Invariant preservation lemmas for each simulator operation. -/

/-- Construction establishes the simulator invariant. -/
theorem inv_new (c : Circuit) (s : Simulator) (h : Simulator.new c = some s) :
    Inv s := by
  simp only [Simulator.new, PauliString.new] at h
  by_cases h64 : c.num_qubits > 64
  · rw [if_pos h64] at h; simp at h
  · rw [if_neg h64] at h
    simp only [Option.map_some'] at h
    obtain rfl := (Option.some.injEq _ _).mp h
    exact ⟨Nat.zero_le _, rfl, rfl⟩

/-- Error injection preserves the simulator invariant. -/
theorem inv_inject (s : Simulator) (q : Nat) (pl : SinglePauli) (s' : Simulator)
    (hinv : Inv s) (h : s.inject_error q pl = some s') : Inv s' := by
  simp only [Simulator.inject_error] at h
  cases hset : s.error_pattern.set_pauli q pl with
  | none => rw [hset] at h; simp at h
  | some ep =>
    rw [hset] at h
    simp only [Option.map_some'] at h
    obtain rfl := (Option.some.injEq _ _).mp h
    refine ⟨hinv.1, ?_, ?_⟩
    · simpa [updateLast_length] using hinv.2.1
    · simpa [updateLast_head_fields] using hinv.2.2

/-- A forward step preserves the simulator invariant. -/
theorem inv_forward (s : Simulator) (b : Bool) (s' : Simulator) (hinv : Inv s)
    (h : s.step_forward = some (b, s')) : Inv s' := by
  simp only [Simulator.step_forward] at h
  split at h
  · next hlt =>
    cases happ : apply_gate s.error_pattern
        (s.circuit.gates.get ⟨s.current_time, hlt⟩) with
    | none => rw [happ] at h; simp at h
    | some ep =>
      rw [happ] at h
      simp only [Option.map_some', Option.some.injEq, Prod.mk.injEq] at h
      obtain ⟨-, rfl⟩ := h
      have htl : s.timeline ≠ [] := by
        have := hinv.2.1
        intro hnil
        rw [hnil] at this
        simp at this
      refine ⟨show s.current_time + 1 ≤ s.circuit.gates.length by omega, ?_, ?_⟩
      · simp [List.length_append, hinv.2.1]
      · cases htll : s.timeline with
        | nil => exact absurd htll htl
        | cons x xs =>
          have := hinv.2.2
          rw [htll] at this
          simpa using this
  · next =>
    simp only [Option.some.injEq, Prod.mk.injEq] at h
    obtain ⟨-, rfl⟩ := h
    exact hinv

/-- A backward step preserves the simulator invariant. -/
theorem inv_backward (s : Simulator) (hinv : Inv s) :
    Inv (Simulator.step_backward s).2 := by
  simp only [Simulator.step_backward]
  split
  · exact hinv
  · next h0 =>
    have hlen : s.timeline.length = s.current_time + 1 := hinv.2.1
    refine ⟨show s.current_time - 1 ≤ s.circuit.gates.length by
        have := hinv.1; omega, ?_, ?_⟩
    · show s.timeline.dropLast.length = s.current_time - 1 + 1
      rw [List.length_dropLast, hlen]
      omega
    · rw [head_dropLast s.timeline (by omega)]
      exact hinv.2.2

/-- reset re-establishes the simulator invariant. -/
theorem inv_reset (s s' : Simulator) (h : s.reset = some s') : Inv s' := by
  simp only [Simulator.reset, PauliString.new] at h
  by_cases h64 : s.circuit.num_qubits > 64
  · rw [if_pos h64] at h; simp at h
  · rw [if_neg h64] at h
    simp only [Option.map_some'] at h
    obtain rfl := (Option.some.injEq _ _).mp h
    exact ⟨Nat.zero_le _, rfl, rfl⟩

/-- Each unfolding of the run loop preserves the simulator invariant. -/
theorem inv_runAux (fuel : Nat) (s s' : Simulator) (hinv : Inv s)
    (h : runAux fuel s = some s') : Inv s' := by
  induction fuel generalizing s with
  | zero =>
    simp only [runAux, Option.some.injEq] at h
    exact h ▸ hinv
  | succ fuel ih =>
    simp only [runAux] at h
    cases hst : s.step_forward with
    | none => rw [hst] at h; simp at h
    | some bs =>
      obtain ⟨b, s1⟩ := bs
      rw [hst] at h
      cases b with
      | false =>
        simp only [Option.some.injEq] at h
        exact h ▸ inv_forward s false s1 hinv hst
      | true => exact ih s1 (inv_forward s true s1 hinv hst) h

/-- run preserves the simulator invariant. -/
theorem inv_run (s s' : Simulator) (hinv : Inv s) (h : s.run = some s') : Inv s' :=
  inv_runAux _ s s' hinv h

/-- C8: every simulator operation preserves the invariant: the cursor
stays between 0 and the circuit depth, the timeline holds exactly
current_time + 1 snapshots, and the entry at index 0 keeps time 0 and no
applied gate (the initial pre-gate snapshot). -/
theorem simulator_invariant_preservation :
    (∀ c s, Simulator.new c = some s → Inv s) ∧
    (∀ s q pl s', Inv s → Simulator.inject_error s q pl = some s' → Inv s') ∧
    (∀ s b s', Inv s → Simulator.step_forward s = some (b, s') → Inv s') ∧
    (∀ s, Inv s → Inv (Simulator.step_backward s).2) ∧
    (∀ s s', Inv s → Simulator.reset s = some s' → Inv s') ∧
    (∀ s s', Inv s → Simulator.run s = some s' → Inv s') :=
  ⟨inv_new, fun s q pl s' h1 h2 => inv_inject s q pl s' h1 h2,
   fun s b s' h1 h2 => inv_forward s b s' h1 h2,
   fun s h1 => inv_backward s h1,
   fun s s' _ h2 => inv_reset s s' h2,
   fun s s' h1 h2 => inv_run s s' h1 h2⟩

/-- C8 witness: the invariant established by construction on a concrete
one-qubit circuit and preserved by a backward step there. -/
theorem simulator_invariant_preservation_witness :
    Inv { error_pattern := { x_bits := 0, z_bits := 0, phase := .PlusOne, num_qubits := 1 },
          circuit := { num_qubits := 1, gates := [.Single 0 .H] },
          timeline := [{ time := 0,
                         error_pattern := { x_bits := 0, z_bits := 0, phase := .PlusOne,
                                            num_qubits := 1 },
                         gate_applied := none }],
          current_time := 0 } :=
  simulator_invariant_preservation.1
    { num_qubits := 1, gates := [.Single 0 .H] } _ (by decide)

/-- C9: step_forward returns false with the state fully unchanged exactly
at the terminal cursor (current_time equal to the circuit depth, for any
in-range cursor), step_backward returns false with the state fully
unchanged exactly at cursor 0, and both boundary results are ordinary
values, not panics. -/
theorem step_boundary_noop (s : Simulator) :
    (s.current_time ≤ s.circuit.depth →
      (s.step_forward = some (false, s) ↔ s.current_time = s.circuit.depth)) ∧
    (s.step_backward = (false, s) ↔ s.current_time = 0) := by
  constructor
  · intro hle
    simp only [Circuit.depth] at hle ⊢
    simp only [Simulator.step_forward]
    split
    · next hlt =>
      constructor
      · intro h
        exfalso
        cases happ : apply_gate s.error_pattern
            (s.circuit.gates.get ⟨s.current_time, hlt⟩) with
        | none => rw [happ] at h; simp at h
        | some ep => rw [happ] at h; simp at h
      · intro h; omega
    · next hge =>
      constructor
      · intro _; omega
      · intro _; rfl
  · simp only [Simulator.step_backward]
    split
    · next h0 => simp [h0]
    · next h0 =>
      constructor
      · intro h; simp at h
      · intro h; exact absurd h h0

/-- C9 witness: the forward no-op at the terminal state of a concrete
one-gate circuit, and the backward no-op at cursor 0. -/
theorem step_boundary_noop_witness :
    Simulator.step_forward
      { error_pattern := { x_bits := 0, z_bits := 1, phase := .PlusOne, num_qubits := 1 },
        circuit := { num_qubits := 1, gates := [.Single 0 .H] },
        timeline := [{ time := 0,
                       error_pattern := { x_bits := 0, z_bits := 0, phase := .PlusOne,
                                          num_qubits := 1 },
                       gate_applied := none },
                     { time := 1,
                       error_pattern := { x_bits := 0, z_bits := 1, phase := .PlusOne,
                                          num_qubits := 1 },
                       gate_applied := some 0 }],
        current_time := 1 }
      = some (false,
        { error_pattern := { x_bits := 0, z_bits := 1, phase := .PlusOne, num_qubits := 1 },
          circuit := { num_qubits := 1, gates := [.Single 0 .H] },
          timeline := [{ time := 0,
                         error_pattern := { x_bits := 0, z_bits := 0, phase := .PlusOne,
                                            num_qubits := 1 },
                         gate_applied := none },
                       { time := 1,
                         error_pattern := { x_bits := 0, z_bits := 1, phase := .PlusOne,
                                            num_qubits := 1 },
                         gate_applied := some 0 }],
          current_time := 1 }) :=
  ((step_boundary_noop _).1 (by decide)).mpr (by decide)

/-! Bit lemmas for the clear-then-set writes of set_pauli. -/

/-- Clearing a bit reads back false at that index. -/
theorem getBit_clear_self (x q : Nat) (hq : q < 64) :
    getBit (x &&& (mask64 ^^^ (1 <<< q))) q = false :=
  getBit_setBit_self x q false hq

/-- Clearing a bit leaves other in-width indices unchanged. -/
theorem getBit_clear_ne (x q j : Nat) (hj : j < 64) (hne : j ≠ q) :
    getBit (x &&& (mask64 ^^^ (1 <<< q))) j = getBit x j :=
  getBit_setBit_ne x q j false hj hne

/-- Clearing then setting a bit reads back true at that index. -/
theorem getBit_clearset_self (x q : Nat) :
    getBit ((x &&& (mask64 ^^^ (1 <<< q))) ||| (1 <<< q)) q = true := by
  simp [getBit, Nat.testBit_lor, Nat.one_shiftLeft, Nat.testBit_two_pow]

/-- Clearing then setting a bit leaves other in-width indices unchanged. -/
theorem getBit_clearset_ne (x q j : Nat) (hj : j < 64) (hne : j ≠ q) :
    getBit ((x &&& (mask64 ^^^ (1 <<< q))) ||| (1 <<< q)) j = getBit x j := by
  have h1 : getBit ((x &&& (mask64 ^^^ (1 <<< q))) ||| (1 <<< q)) j
      = getBit (x &&& (mask64 ^^^ (1 <<< q))) j :=
    getBit_setBit_ne (x &&& (mask64 ^^^ (1 <<< q))) q j true hj hne
  rw [h1, getBit_clear_ne x q j hj hne]

/-- Frame conditions of set_pauli: the written qubit reads back, every
other in-range qubit is unchanged, and the size and phase are kept. -/
theorem set_pauli_get (p : PauliString) (q : Nat) (pl : SinglePauli) (ep : PauliString)
    (hq : q < p.num_qubits) (h64 : p.num_qubits ≤ 64)
    (hset : p.set_pauli q pl = some ep) :
    ep.num_qubits = p.num_qubits ∧ ep.phase = p.phase ∧
    ep.get_pauli q = some pl ∧
    (∀ j, j < p.num_qubits → j ≠ q → ep.get_pauli j = p.get_pauli j) := by
  have hq64 : q < 64 := by omega
  simp only [PauliString.set_pauli] at hset
  rw [if_neg (by omega)] at hset
  have hep := (Option.some.injEq _ _).mp hset
  cases pl with
  | I =>
    have hx : ep.x_bits = p.x_bits &&& (mask64 ^^^ (1 <<< q)) := by rw [← hep]
    have hz : ep.z_bits = p.z_bits &&& (mask64 ^^^ (1 <<< q)) := by rw [← hep]
    have hph : ep.phase = p.phase := by rw [← hep]
    have hn : ep.num_qubits = p.num_qubits := by rw [← hep]
    refine ⟨hn, hph, ?_, ?_⟩
    · rw [get_pauli_of_bits ep q (by rw [hn]; exact hq), hx, hz,
        getBit_clear_self p.x_bits q hq64, getBit_clear_self p.z_bits q hq64]
      rfl
    · intro j hj hne
      have hj64 : j < 64 := by omega
      rw [get_pauli_of_bits ep j (by rw [hn]; exact hj), get_pauli_of_bits p j hj, hx, hz]
      simp only [getBit_clearset_ne _ _ _ hj64 hne, getBit_clear_ne _ _ _ hj64 hne]
  | X =>
    have hx : ep.x_bits = (p.x_bits &&& (mask64 ^^^ (1 <<< q))) ||| (1 <<< q) := by
      rw [← hep]
    have hz : ep.z_bits = p.z_bits &&& (mask64 ^^^ (1 <<< q)) := by rw [← hep]
    have hph : ep.phase = p.phase := by rw [← hep]
    have hn : ep.num_qubits = p.num_qubits := by rw [← hep]
    refine ⟨hn, hph, ?_, ?_⟩
    · rw [get_pauli_of_bits ep q (by rw [hn]; exact hq), hx, hz,
        getBit_clearset_self p.x_bits q, getBit_clear_self p.z_bits q hq64]
      rfl
    · intro j hj hne
      have hj64 : j < 64 := by omega
      rw [get_pauli_of_bits ep j (by rw [hn]; exact hj), get_pauli_of_bits p j hj, hx, hz]
      simp only [getBit_clearset_ne _ _ _ hj64 hne, getBit_clear_ne _ _ _ hj64 hne]
  | Y =>
    have hx : ep.x_bits = (p.x_bits &&& (mask64 ^^^ (1 <<< q))) ||| (1 <<< q) := by
      rw [← hep]
    have hz : ep.z_bits = (p.z_bits &&& (mask64 ^^^ (1 <<< q))) ||| (1 <<< q) := by
      rw [← hep]
    have hph : ep.phase = p.phase := by rw [← hep]
    have hn : ep.num_qubits = p.num_qubits := by rw [← hep]
    refine ⟨hn, hph, ?_, ?_⟩
    · rw [get_pauli_of_bits ep q (by rw [hn]; exact hq), hx, hz,
        getBit_clearset_self p.x_bits q, getBit_clearset_self p.z_bits q]
      rfl
    · intro j hj hne
      have hj64 : j < 64 := by omega
      rw [get_pauli_of_bits ep j (by rw [hn]; exact hj), get_pauli_of_bits p j hj, hx, hz]
      simp only [getBit_clearset_ne _ _ _ hj64 hne, getBit_clear_ne _ _ _ hj64 hne]
  | Z =>
    have hx : ep.x_bits = p.x_bits &&& (mask64 ^^^ (1 <<< q)) := by rw [← hep]
    have hz : ep.z_bits = (p.z_bits &&& (mask64 ^^^ (1 <<< q))) ||| (1 <<< q) := by
      rw [← hep]
    have hph : ep.phase = p.phase := by rw [← hep]
    have hn : ep.num_qubits = p.num_qubits := by rw [← hep]
    refine ⟨hn, hph, ?_, ?_⟩
    · rw [get_pauli_of_bits ep q (by rw [hn]; exact hq), hx, hz,
        getBit_clear_self p.x_bits q hq64, getBit_clearset_self p.z_bits q]
      rfl
    · intro j hj hne
      have hj64 : j < 64 := by omega
      rw [get_pauli_of_bits ep j (by rw [hn]; exact hj), get_pauli_of_bits p j hj, hx, hz]
      simp only [getBit_clearset_ne _ _ _ hj64 hne, getBit_clear_ne _ _ _ hj64 hne]

/-- C10: inject_error changes only the injected qubit's component on the
live pattern and the pattern recorded in the most recent timeline entry
(which is set to the updated live pattern); the phase, every other
qubit's component, all earlier snapshots, the last snapshot's time and
gate fields, the cursor and the circuit are unchanged. -/
theorem inject_error_frame (s : Simulator) (q : Nat) (pl : SinglePauli) (s' : Simulator)
    (hq : q < s.error_pattern.num_qubits)
    (h64 : s.error_pattern.num_qubits ≤ 64)
    (htl : s.timeline ≠ [])
    (hinj : s.inject_error q pl = some s') :
    s'.circuit = s.circuit ∧
    s'.current_time = s.current_time ∧
    s'.error_pattern.num_qubits = s.error_pattern.num_qubits ∧
    s'.error_pattern.phase = s.error_pattern.phase ∧
    s'.error_pattern.get_pauli q = some pl ∧
    (∀ j, j < s.error_pattern.num_qubits → j ≠ q →
      s'.error_pattern.get_pauli j = s.error_pattern.get_pauli j) ∧
    s'.timeline.dropLast = s.timeline.dropLast ∧
    s'.timeline.getLast?.map Snapshot.time = s.timeline.getLast?.map Snapshot.time ∧
    s'.timeline.getLast?.map Snapshot.gate_applied
      = s.timeline.getLast?.map Snapshot.gate_applied ∧
    s'.timeline.getLast?.map Snapshot.error_pattern = some s'.error_pattern ∧
    s'.timeline.length = s.timeline.length := by
  simp only [Simulator.inject_error] at hinj
  cases hset : s.error_pattern.set_pauli q pl with
  | none => rw [hset] at hinj; simp at hinj
  | some ep =>
    rw [hset] at hinj
    simp only [Option.map_some'] at hinj
    obtain rfl := (Option.some.injEq _ _).mp hinj
    obtain ⟨hn, hph, hgq, hgo⟩ := set_pauli_get s.error_pattern q pl ep hq h64 hset
    cases hlast : s.timeline.getLast? with
    | none => exact absurd (List.getLast?_eq_none_iff.mp hlast) htl
    | some last =>
      refine ⟨rfl, rfl, hn, hph, hgq, hgo, updateLast_dropLast _ _, ?_, ?_, ?_,
        updateLast_length _ _⟩ <;>
        rw [show (updateLast s.timeline ep).getLast?
              = s.timeline.getLast?.map (fun sn => { sn with error_pattern := ep })
            from updateLast_getLast _ _, hlast] <;>
        rfl

/-- C10 witness: the inject frame conditions at a concrete one-qubit
simulator injecting X on qubit 0. -/
theorem inject_error_frame_witness :
    (Simulator.mk { x_bits := 1, z_bits := 0, phase := .PlusOne, num_qubits := 1 }
        { num_qubits := 1, gates := [] }
        [{ time := 0,
           error_pattern := { x_bits := 1, z_bits := 0, phase := .PlusOne, num_qubits := 1 },
           gate_applied := none }] 0).circuit
      = (Simulator.mk { x_bits := 0, z_bits := 0, phase := .PlusOne, num_qubits := 1 }
          { num_qubits := 1, gates := [] }
          [{ time := 0,
             error_pattern := { x_bits := 0, z_bits := 0, phase := .PlusOne,
                                num_qubits := 1 },
             gate_applied := none }] 0).circuit ∧
    (Simulator.mk { x_bits := 1, z_bits := 0, phase := .PlusOne, num_qubits := 1 }
        { num_qubits := 1, gates := [] }
        [{ time := 0,
           error_pattern := { x_bits := 1, z_bits := 0, phase := .PlusOne, num_qubits := 1 },
           gate_applied := none }] 0).current_time = 0 ∧
    (1 : Nat) = 1 ∧
    Phase.PlusOne = Phase.PlusOne ∧
    PauliString.get_pauli { x_bits := 1, z_bits := 0, phase := .PlusOne, num_qubits := 1 } 0
      = some .X ∧
    (∀ j, j < 1 → j ≠ 0 →
      PauliString.get_pauli { x_bits := 1, z_bits := 0, phase := .PlusOne, num_qubits := 1 } j
        = PauliString.get_pauli { x_bits := 0, z_bits := 0, phase := .PlusOne,
                                  num_qubits := 1 } j) ∧
    ([{ time := 0,
        error_pattern := { x_bits := 1, z_bits := 0, phase := .PlusOne, num_qubits := 1 },
        gate_applied := none }] : List Snapshot).dropLast
      = ([{ time := 0,
            error_pattern := { x_bits := 0, z_bits := 0, phase := .PlusOne, num_qubits := 1 },
            gate_applied := none }] : List Snapshot).dropLast ∧
    ([{ time := 0,
        error_pattern := { x_bits := 1, z_bits := 0, phase := .PlusOne, num_qubits := 1 },
        gate_applied := none }] : List Snapshot).getLast?.map Snapshot.time
      = ([{ time := 0,
            error_pattern := { x_bits := 0, z_bits := 0, phase := .PlusOne, num_qubits := 1 },
            gate_applied := none }] : List Snapshot).getLast?.map Snapshot.time ∧
    ([{ time := 0,
        error_pattern := { x_bits := 1, z_bits := 0, phase := .PlusOne, num_qubits := 1 },
        gate_applied := none }] : List Snapshot).getLast?.map Snapshot.gate_applied
      = ([{ time := 0,
            error_pattern := { x_bits := 0, z_bits := 0, phase := .PlusOne, num_qubits := 1 },
            gate_applied := none }] : List Snapshot).getLast?.map Snapshot.gate_applied ∧
    ([{ time := 0,
        error_pattern := { x_bits := 1, z_bits := 0, phase := .PlusOne, num_qubits := 1 },
        gate_applied := none }] : List Snapshot).getLast?.map Snapshot.error_pattern
      = some { x_bits := 1, z_bits := 0, phase := .PlusOne, num_qubits := 1 } ∧
    ([{ time := 0,
        error_pattern := { x_bits := 1, z_bits := 0, phase := .PlusOne, num_qubits := 1 },
        gate_applied := none }] : List Snapshot).length
      = ([{ time := 0,
            error_pattern := { x_bits := 0, z_bits := 0, phase := .PlusOne, num_qubits := 1 },
            gate_applied := none }] : List Snapshot).length :=
  inject_error_frame
    (Simulator.mk { x_bits := 0, z_bits := 0, phase := .PlusOne, num_qubits := 1 }
      { num_qubits := 1, gates := [] }
      [{ time := 0,
         error_pattern := { x_bits := 0, z_bits := 0, phase := .PlusOne, num_qubits := 1 },
         gate_applied := none }] 0)
    0 .X
    (Simulator.mk { x_bits := 1, z_bits := 0, phase := .PlusOne, num_qubits := 1 }
      { num_qubits := 1, gates := [] }
      [{ time := 0,
         error_pattern := { x_bits := 1, z_bits := 0, phase := .PlusOne, num_qubits := 1 },
         gate_applied := none }] 0)
    (by decide) (by decide) (by decide) (by decide)

/-- The undo invariant: n forward steps that all succeed from a state
whose live pattern matches its last snapshot are exactly reverted by n
backward steps, restoring the full simulator state. -/
theorem roundtrip_aux (n : Nat) : ∀ (s s' : Simulator), liveMatchesLast s →
    s.current_time + n ≤ s.circuit.gates.length →
    stepForwardN n s = some s' → stepBackwardN n s' = s := by
  induction n with
  | zero =>
    intro s s' _ _ h
    simp only [stepForwardN, Option.some.injEq] at h
    rw [← h]
    rfl
  | succ n ih =>
    intro s s' hl hle h
    obtain ⟨sep, sc, stl, sct⟩ := s
    have hle2 : sct + (n + 1) ≤ sc.gates.length := hle
    have hlt : sct < sc.gates.length := by omega
    simp only [stepForwardN, Simulator.step_forward] at h
    rw [dif_pos hlt] at h
    cases happ : apply_gate sep (sc.gates.get ⟨sct, hlt⟩) with
    | none => rw [happ] at h; simp at h
    | some ep =>
      rw [happ] at h
      simp only [Option.map_some'] at h
      have hl1 : liveMatchesLast
          (Simulator.mk ep sc
            (stl ++ [{ time := sct + 1, error_pattern := ep, gate_applied := some sct }])
            (sct + 1)) := by
        simp [liveMatchesLast]
      have hle1 : (Simulator.mk ep sc
          (stl ++ [{ time := sct + 1, error_pattern := ep, gate_applied := some sct }])
          (sct + 1)).current_time + n
            ≤ (Simulator.mk ep sc
                (stl ++ [{ time := sct + 1, error_pattern := ep,
                           gate_applied := some sct }]) (sct + 1)).circuit.gates.length := by
        show sct + 1 + n ≤ sc.gates.length
        omega
      have hb := ih _ s' hl1 hle1 h
      simp only [stepBackwardN]
      rw [hb]
      simp only [Simulator.step_backward]
      rw [if_neg (show ¬(sct + 1 = 0) by omega)]
      cases hlast : stl.getLast? with
      | none =>
        exfalso
        simp only [liveMatchesLast, hlast] at hl
        simp at hl
      | some last =>
        have hlast_ep : last.error_pattern = sep := by
          simp only [liveMatchesLast, hlast] at hl
          simpa using hl
        simp [List.dropLast_concat, hlast, hlast_ep]

/-- C6: from any simulator at cursor 0 whose live pattern matches its
last snapshot (the state after construction and error injection), n
successful forward steps with n at most the circuit depth followed by n
backward steps restore the live error pattern exactly and return the
cursor to 0. -/
theorem step_roundtrip (s s' : Simulator) (n : Nat)
    (hl : liveMatchesLast s) (h0 : s.current_time = 0) (hn : n ≤ s.circuit.depth)
    (hf : stepForwardN n s = some s') :
    (stepBackwardN n s').error_pattern = s.error_pattern ∧
    (stepBackwardN n s').current_time = 0 := by
  have hb : stepBackwardN n s' = s := by
    refine roundtrip_aux n s s' hl ?_ hf
    simp only [Circuit.depth] at hn
    omega
  rw [hb]
  exact ⟨rfl, h0⟩

/-- C6 witness: one forward step then one backward step on a concrete
one-qubit circuit [H] with an injected X error. -/
theorem step_roundtrip_witness :
    (stepBackwardN 1
      (Simulator.mk { x_bits := 0, z_bits := 1, phase := .PlusOne, num_qubits := 1 }
        { num_qubits := 1, gates := [.Single 0 .H] }
        [{ time := 0,
           error_pattern := { x_bits := 1, z_bits := 0, phase := .PlusOne, num_qubits := 1 },
           gate_applied := none },
         { time := 1,
           error_pattern := { x_bits := 0, z_bits := 1, phase := .PlusOne, num_qubits := 1 },
           gate_applied := some 0 }] 1)).error_pattern
      = (Simulator.mk { x_bits := 1, z_bits := 0, phase := .PlusOne, num_qubits := 1 }
          { num_qubits := 1, gates := [.Single 0 .H] }
          [{ time := 0,
             error_pattern := { x_bits := 1, z_bits := 0, phase := .PlusOne,
                                num_qubits := 1 },
             gate_applied := none }] 0).error_pattern ∧
    (stepBackwardN 1
      (Simulator.mk { x_bits := 0, z_bits := 1, phase := .PlusOne, num_qubits := 1 }
        { num_qubits := 1, gates := [.Single 0 .H] }
        [{ time := 0,
           error_pattern := { x_bits := 1, z_bits := 0, phase := .PlusOne, num_qubits := 1 },
           gate_applied := none },
         { time := 1,
           error_pattern := { x_bits := 0, z_bits := 1, phase := .PlusOne, num_qubits := 1 },
           gate_applied := some 0 }] 1)).current_time = 0 :=
  step_roundtrip
    (Simulator.mk { x_bits := 1, z_bits := 0, phase := .PlusOne, num_qubits := 1 }
      { num_qubits := 1, gates := [.Single 0 .H] }
      [{ time := 0,
         error_pattern := { x_bits := 1, z_bits := 0, phase := .PlusOne, num_qubits := 1 },
         gate_applied := none }] 0)
    (Simulator.mk { x_bits := 0, z_bits := 1, phase := .PlusOne, num_qubits := 1 }
      { num_qubits := 1, gates := [.Single 0 .H] }
      [{ time := 0,
         error_pattern := { x_bits := 1, z_bits := 0, phase := .PlusOne, num_qubits := 1 },
         gate_applied := none },
       { time := 1,
         error_pattern := { x_bits := 0, z_bits := 1, phase := .PlusOne, num_qubits := 1 },
         gate_applied := some 0 }] 1)
    1 rfl rfl (by decide) (by decide)

end QEA
